import Mathlib

/-
Shallow embedding of the grouped log-archiving core of main.go
(IIS-Log-compressor). The embedding covers: period grouping and
current-period exclusion (processLogs, groupKeyForTime), grouped archive
construction (compressMonthGroup, addFilesToZip), post-write verification
(verifyZipContainsAll), retry-guarded deletion (deleteWithRetry), the two
retention policies (cleanupOldCompressedLogs), and the shared run
statistics (CompressionStats). File-system effects are made explicit as
environment records (success/failure of each OS call), and Go maps are
represented as association lists with overwrite-on-insert semantics.
-/

/-- Civil date (year, month, day) of a timestamp, the part of a Go
time.Time consumed by the Format layouts 2006, 01 and 02 used in
groupKeyForTime. -/
structure GoTime where
  year : Nat
  month : Nat
  day : Nat
deriving DecidableEq, Repr

/-- LogFile (main.go:67-71): path, size in bytes, modification date. -/
structure LogFile where
  path : String
  size : Int
  modTime : GoTime
deriving DecidableEq, Repr

/-- Config (main.go:25-39): the fields read by the archiving and
retention core. Integer fields keep Go int semantics (they may be
non-positive). -/
structure Config where
  destFolder : String
  retentionDays : Int
  deleteOriginalAfterCompress : Bool
  compressCurrentMonth : Bool
  archiveScope : String
  keepLastNArchives : Int
  compressionType : String
deriving DecidableEq, Repr

/-- Association-list lookup, the reading counterpart of a Go map access. -/
def alookup {α : Type} : List (String × α) → String → Option α
  | [], _ => none
  | kv :: rest, k => if kv.1 = k then some kv.2 else alookup rest k

/-- Removal of every binding of a key, the counterpart of Go delete(m, k)
(main.go:212 and main.go:216). -/
def aerase {α : Type} : List (String × α) → String → List (String × α)
  | [], _ => []
  | kv :: rest, k => if kv.1 = k then aerase rest k else kv :: aerase rest k

/-- Overwriting insertion, the counterpart of a Go map assignment
m[k] = v: any previous binding of k is replaced. -/
def mapInsert {α : Type} (m : List (String × α)) (k : String) (v : α) : List (String × α) :=
  aerase m k ++ [(k, v)]

/-- ASCII lower-casing of one character, the fragment of Go
strings.ToLower exercised by the scope, compression-kind and extension
comparisons of main.go (all operands are ASCII). -/
def lowerChar (c : Char) : Char :=
  if c.isUpper then Char.ofNat (c.toNat + 32) else c

/-- ASCII lower-casing of a string, standing in for strings.ToLower. -/
def toLowerAscii (s : String) : String :=
  String.mk (s.data.map lowerChar)

/-- Decimal rendering padded to two digits, as the Go Format layouts 01
and 02 produce for month and day. -/
def pad2 (n : Nat) : String :=
  if n < 10 then ("0" ++ toString n) else toString n

/-- Decimal rendering padded to four digits, as layout 2006 produces for
the year. -/
def pad4 (n : Nat) : String :=
  if n < 10 then ("000" ++ toString n)
  else if n < 100 then ("00" ++ toString n)
  else if n < 1000 then ("0" ++ toString n)
  else toString n

/-- groupKeyForTime (main.go:244-250): daily scope keys files by
YYYY-MM-DD, every other scope value by YYYY-MM. -/
def groupKeyForTime (archiveScope : String) (t : GoTime) : String :=
  if toLowerAscii archiveScope = "daily" then
    (pad4 t.year ++ "-" ++ pad2 t.month ++ "-" ++ pad2 t.day)
  else
    (pad4 t.year ++ "-" ++ pad2 t.month)

/-- One step of the grouping loop (main.go:204-207):
groups[key] = append(groups[key], lf). -/
def addToGroup (gs : List (String × List LogFile)) (k : String) (lf : LogFile) :
    List (String × List LogFile) :=
  match alookup gs k with
  | some _ => gs.map (fun q => if q.1 = k then (q.1, q.2 ++ [lf]) else q)
  | none => gs ++ [(k, [lf])]

/-- The grouping loop of processLogs (main.go:203-207). -/
def buildGroups (archiveScope : String) (files : List LogFile) :
    List (String × List LogFile) :=
  files.foldl (fun gs lf => addToGroup gs (groupKeyForTime archiveScope lf.modTime) lf) []

/-- The current-period exclusion of processLogs (main.go:208-217):
monthly scope deletes the group under today's key unless
CompressCurrentMonth is set; any other scope always deletes it. -/
def excludeCurrentPeriod (archiveScope : String) (compressCurrentMonth : Bool)
    (nowKey : String) (gs : List (String × List LogFile)) :
    List (String × List LogFile) :=
  if toLowerAscii archiveScope = "monthly" then
    if compressCurrentMonth then gs else aerase gs nowKey
  else aerase gs nowKey

/-- The grouping step of processLogs as a whole: build the groups, then
remove the current period (main.go:203-217). -/
def groupAndExclude (archiveScope : String) (compressCurrentMonth : Bool)
    (now : GoTime) (files : List LogFile) : List (String × List LogFile) :=
  excludeCurrentPeriod archiveScope compressCurrentMonth
    (groupKeyForTime archiveScope now) (buildGroups archiveScope files)

/-- Base of a slash- or backslash-separated path, as filepath.Base is
used on source paths in main.go:389 and main.go:443 (the last non-empty
segment; the path itself when no segment exists). -/
def baseName (p : String) : String :=
  let isSep := fun (c : Char) => c = '/' || c = '\\'
  let seg := ((p.data.reverse.dropWhile isSep).takeWhile (fun c => !isSep c)).reverse
  if seg = [] then p else String.mk seg

/-- Go conversion int64(u) of a uint64 value u, used in the size
comparison of main.go:450. -/
def int64OfUInt64 (u : Nat) : Int :=
  if u < 2 ^ 63 then (u : Int) else (u : Int) - 2 ^ 64

/-- The per-path verdict of the verification loop (main.go:442-455):
stat the live source file, then require the entries map to bind the
path's base name to exactly the live size (compared through int64). -/
def verifyVerdict (entries : List (String × Nat)) (statSize : String → Option Int)
    (p : String) : Bool :=
  match statSize p with
  | none => false
  | some size =>
    match alookup entries (baseName p) with
    | some u => if int64OfUInt64 u = size then true else false
    | none => false

/-- verifyZipContainsAll (main.go:424-457). zipOpen is the result of
zip.OpenReader: none when the container cannot be opened (then every
added path is mapped to false and an error is recorded, flagged by the
second component), otherwise the container's entry list in central
directory order (name, uncompressed size); the entries map is built by
overwriting insertion, so a later duplicate name shadows an earlier one. -/
def verifyZipContainsAll (zipOpen : Option (List (String × Nat)))
    (statSize : String → Option Int) (added : List String) :
    List (String × Bool) × Bool :=
  match zipOpen with
  | none => (added.foldl (fun m p => mapInsert m p false) [], true)
  | some zfiles =>
    let entries := zfiles.foldl (fun m f => mapInsert m f.1 f.2) []
    (added.foldl (fun m p => mapInsert m p (verifyVerdict entries statSize p)) [], false)

/-- Uncompressed size of the last container entry carrying a given name,
the binding that survives in the entries map of main.go:438-441. -/
def lastEntrySize (zfiles : List (String × Nat)) (name : String) : Option Nat :=
  zfiles.foldl (fun acc f => if f.1 = name then some f.2 else acc) none

/-- Environment of one group task: the outcome of every OS call it can
make, so the control flow of compressMonthGroup is a pure function of it. -/
structure GroupEnv where
  createOk : Bool
  openOk : String → Bool
  entryOk : String → Bool
  copyOk : String → Bool
  zipCloseOk : Bool
  fileCloseOk : Bool
  zipOpen : Option (List (String × Nat))
  statSize : String → Option Int
  removeAttemptOk : String → Nat → Bool

/-- addFilesToZip (main.go:375-422): a file is embedded (and its path
recorded in the added list) iff its open, entry creation and copy all
succeed; a failure only skips that file. The Bool component is true iff
zipWriter.Close failed (main.go:418-421). -/
def addFilesToZipM (env : GroupEnv) (files : List LogFile) : List String × Bool :=
  (files.foldl
    (fun acc lf =>
      if env.openOk lf.path && env.entryOk lf.path && env.copyOk lf.path then
        acc ++ [lf.path]
      else acc)
    [],
   !env.zipCloseOk)

/-- deleteWithRetry (main.go:838-849): os.Remove is attempted a bounded
number of times; the call succeeds iff some attempt succeeds. -/
def deleteWithRetryM (attemptOk : Nat → Bool) (attempts : Nat) : Bool :=
  (List.range attempts).any attemptOk

/-- Observable outcome of one group task of compressMonthGroup. -/
structure GroupOutcome where
  failed : Bool
  containerRemoved : Bool
  verifyRan : Bool
  deletionsAttempted : List String
  deleted : List String
deriving DecidableEq, Repr

/-- The verification mapping produced for one group (main.go:306): the
verifier applied to the group's container content and its ArchiveRecord
of successfully added paths. -/
def groupVerified (env : GroupEnv) (files : List LogFile) : List (String × Bool) :=
  (verifyZipContainsAll env.zipOpen env.statSize (addFilesToZipM env files).1).1

/-- The deletion attempts of the archive phase (main.go:307-315): when
DeleteOriginalAfterCompress is set, exactly the paths the verification
mapping binds to true; otherwise none. -/
def groupDeletionsAttempted (cfg : Config) (env : GroupEnv) (files : List LogFile) :
    List String :=
  if cfg.deleteOriginalAfterCompress then
    ((groupVerified env files).filter (fun q => q.2)).map Prod.fst
  else []

/-- compressMonthGroup (main.go:277-333). Empty groups return at once; a
create failure fails the group; under zip, a zip-writer close failure
removes the container and fails the group (main.go:296-300), a failure
of the destination file handle close fails the group without removing
the container (main.go:302-304); otherwise the archive is verified and,
when DeleteOriginalAfterCompress is set, every path the verifier mapped
to true has deletion attempted with bounded retry (main.go:306-315).
The gzip and unknown compression branches close, remove and fail
(main.go:322-329). -/
def compressMonthGroup (cfg : Config) (env : GroupEnv) (files : List LogFile) :
    GroupOutcome :=
  if files = [] then ⟨false, false, false, [], []⟩
  else if env.createOk = false then ⟨true, false, false, [], []⟩
  else if toLowerAscii cfg.compressionType = "zip" then
    if (addFilesToZipM env files).2 = true then ⟨true, true, false, [], []⟩
    else if env.fileCloseOk = false then ⟨true, false, false, [], []⟩
    else ⟨false, false, true,
      groupDeletionsAttempted cfg env files,
      (groupDeletionsAttempted cfg env files).filter
        (fun p => deleteWithRetryM (env.removeAttemptOk p) 3)⟩
  else ⟨true, true, false, [], []⟩

/-- CompressionStats (main.go:53-64), the fields the grouped pipeline
mutates. -/
structure CompressionStats where
  filesProcessed : Nat
  filesCompressed : Nat
  totalSizeBefore : Int
  totalSizeAfter : Int
  errors : List String
  groupCount : Nat
deriving DecidableEq, Repr

/-- The statistics of a fresh run (main.go:98-101). -/
def initialStats : CompressionStats :=
  ⟨0, 0, 0, 0, [], 0⟩

/-- The statistics mutations reachable from the grouped pipeline, one
constructor per mutation site: embedSuccess is the joint counter update
of main.go:409-413 performed once per successfully embedded file;
fileError the per-file error appends of addFilesToZip; verifyOpenError
the append of main.go:432; archiveSizeAfter the update of main.go:317-321;
groupError the append of main.go:232-236; setGroupCount main.go:218. -/
inductive StatsEvent where
  | embedSuccess (size : Int)
  | fileError (msg : String)
  | verifyOpenError (msg : String)
  | archiveSizeAfter (size : Int)
  | groupError (msg : String)
  | setGroupCount (n : Nat)
deriving DecidableEq, Repr

/-- Effect of one statistics mutation on the shared CompressionStats. -/
def applyStatsEvent (s : CompressionStats) (e : StatsEvent) : CompressionStats :=
  match e with
  | .embedSuccess size =>
      { s with filesProcessed := s.filesProcessed + 1,
               filesCompressed := s.filesCompressed + 1,
               totalSizeBefore := s.totalSizeBefore + size }
  | .fileError msg => { s with errors := s.errors ++ [msg] }
  | .verifyOpenError msg => { s with errors := s.errors ++ [msg] }
  | .archiveSizeAfter size => { s with totalSizeAfter := s.totalSizeAfter + size }
  | .groupError msg => { s with errors := s.errors ++ [msg] }
  | .setGroupCount n => { s with groupCount := n }

/-- Recognizer of the joint counter update event. -/
def isEmbedSuccess : StatsEvent → Bool
  | .embedSuccess _ => true
  | _ => false

/-- One entry visited by the recursive walk of the age-cutoff sweep
(filepath.Walk in main.go:659-671): its path, whether it is a directory,
its modification time (an instant on an absolute timeline, in seconds),
and whether the walk itself reported an error for it. -/
structure WalkEntry where
  path : String
  isDir : Bool
  mod : Int
  walkErr : Bool
deriving DecidableEq, Repr

/-- Result of the age-cutoff sweep: the paths whose deletion was
attempted, the paths actually removed, and whether the walk ended in an
error. -/
structure AgeSweepResult where
  attempted : List String
  removed : List String
  errored : Bool
deriving DecidableEq, Repr

/-- The age-cutoff walk body (main.go:659-671): a walk error aborts;
directories are skipped; a file strictly older than the cutoff is
removed, and because the walk callback returns the os.Remove error, a
failed removal aborts the rest of the walk. -/
def ageSweep (removeOk : String → Bool) (cutoff : Int) :
    List WalkEntry → AgeSweepResult
  | [] => ⟨[], [], false⟩
  | v :: rest =>
    if v.walkErr then ⟨[], [], true⟩
    else if v.isDir then ageSweep removeOk cutoff rest
    else if v.mod < cutoff then
      if removeOk v.path then
        let r := ageSweep removeOk cutoff rest
        ⟨v.path :: r.attempted, v.path :: r.removed, r.errored⟩
      else ⟨[v.path], [], true⟩
    else ageSweep removeOk cutoff rest

/-- One entry of the destination directory listing (os.ReadDir in
main.go:621): its name and whether it is a directory. -/
structure DirEntry where
  name : String
  isDir : Bool
deriving DecidableEq, Repr

/-- Environment of the retention step: the destination directory listing
(for keep-last-N), per-path stat results, per-path removal outcomes, and
the recursive walk sequence (for age-cutoff). -/
structure CleanupEnv where
  readDirOk : Bool
  entries : List DirEntry
  statMod : String → Option Int
  removeOk : String → Bool
  walkFiles : List WalkEntry

/-- strings.HasSuffix(strings.ToLower(name), suffix), the extension test
of main.go:635. -/
def hasSuffixLower (name suffix : String) : Bool :=
  suffix.data.isSuffixOf (toLowerAscii name).data

/-- filepath.Join of the destination folder and an entry name
(main.go:634), kept as plain separator concatenation. -/
def pathJoin (dir name : String) : String :=
  dir ++ "/" ++ name

/-- The candidate collection of the keep-last-N branch (main.go:630-643):
an entry contributes (path, mod time) iff it is not a directory, its
lower-cased name ends in ".zip" or ".gz", and os.Stat on its joined path
succeeds. -/
def keepCandidates (env : CleanupEnv) (destFolder : String) : List (String × Int) :=
  env.entries.filterMap (fun e =>
    if e.isDir then none
    else if !(hasSuffixLower e.name (".zip") || hasSuffixLower e.name (".gz")) then none
    else
      match env.statMod (pathJoin destFolder e.name) with
      | some m => some (pathJoin destFolder e.name, m)
      | none => none)

/-- Insertion into a list sorted by descending modification time, the
order produced by the sort of main.go:644. -/
def insertByModDesc (x : String × Int) : List (String × Int) → List (String × Int)
  | [] => [x]
  | y :: ys => if y.2 < x.2 then x :: y :: ys else y :: insertByModDesc x ys

/-- Sort by descending modification time (main.go:644). -/
def sortByModDesc (l : List (String × Int)) : List (String × Int) :=
  l.foldr insertByModDesc []

/-- The removal attempts of the keep-last-N branch (main.go:645-650):
every candidate beyond the first KeepLastNArchives in descending
modification order. -/
def keepAttempts (cfg : Config) (env : CleanupEnv) : List String :=
  ((sortByModDesc (keepCandidates env cfg.destFolder)).drop
    cfg.keepLastNArchives.toNat).map Prod.fst

/-- Observable outcome of the retention step. -/
structure CleanupOutcome where
  attempted : List String
  removed : List String
  errored : Bool
deriving DecidableEq, Repr

/-- cleanupOldCompressedLogs (main.go:618-672). KeepLastNArchives > 0
selects the keep-last-N branch (whose removal failures are ignored,
main.go:648) and returns without evaluating the age policy; otherwise a
non-positive RetentionDays makes the step a no-op; otherwise the
age-cutoff walk runs against cutoff now - RetentionDays days (a day
being a fixed 86400-second span). -/
def cleanupOldCompressedLogs (cfg : Config) (env : CleanupEnv) (now : Int) :
    CleanupOutcome :=
  if 0 < cfg.keepLastNArchives then
    if env.readDirOk = false then ⟨[], [], true⟩
    else
      let att := keepAttempts cfg env
      ⟨att, att.filter env.removeOk, false⟩
  else if cfg.retentionDays ≤ 0 then ⟨[], [], false⟩
  else
    let r := ageSweep env.removeOk (now - cfg.retentionDays * 86400) env.walkFiles
    ⟨r.attempted, r.removed, r.errored⟩

/-- One source location of the grouped pipeline that mutates the shared
CompressionStats, together with whether the mutation is performed
between mu.Lock() and mu.Unlock() in the source. -/
structure StatsMutationSite where
  location : String
  holdsMutex : Bool
deriving DecidableEq, Repr

/-- Every mutation of the shared stats reachable from the grouped
pipeline (processLogs and the functions its group goroutines call),
transcribed from the source: the error appends and counter updates of
addFilesToZip (main.go:384-386, 394-396, 402-404, 409-413), the
TotalSizeAfter update of compressMonthGroup (main.go:317-321), the group
error append of processLogs (main.go:233-235) all lock mu; the error
append of verifyZipContainsAll (main.go:432) does not. -/
def groupedStatsMutationSites : List StatsMutationSite :=
  [⟨"processLogs: append group error", true⟩,
   ⟨"addFilesToZip: append open error", true⟩,
   ⟨"addFilesToZip: append zip entry error", true⟩,
   ⟨"addFilesToZip: append zip copy error", true⟩,
   ⟨"addFilesToZip: counter and size-before update", true⟩,
   ⟨"compressMonthGroup: size-after update", true⟩,
   ⟨"verifyZipContainsAll: append verify-open error", false⟩]

/-- A stat result whose size fits the Int64 range Go's os.FileInfo.Size
actually produces (non-negative, below 2^63). -/
def statInRangeB : Option Int → Bool
  | some s => decide (0 ≤ s ∧ s < 2 ^ 63)
  | none => true

/-- A configuration with delete-after-compress enabled, zip compression
and retention disabled, used as a concrete run instance. -/
def cfgDelW : Config :=
  ⟨"dest", 0, true, false, "monthly", 0, "zip"⟩

/-- A group environment in which every OS call succeeds and the
container read back holds exactly one entry matching the live file. -/
def envOkW : GroupEnv :=
  ⟨true, fun _ => true, fun _ => true, fun _ => true, true, true,
   some [("a.log", 5)],
   (fun q => if q = "a.log" then some 5 else none),
   fun _ _ => true⟩

/-- The same environment with a failing destination file handle close. -/
def envFileCloseFailW : GroupEnv :=
  { envOkW with fileCloseOk := false }

/-- The same environment with a failing zip writer close. -/
def envZipCloseFailW : GroupEnv :=
  { envOkW with zipCloseOk := false }

/-- A one-file group. -/
def filesOneW : List LogFile :=
  [⟨"a.log", 5, ⟨2024, 1, 2⟩⟩]

/-- A concrete run date. -/
def nowC2W : GoTime := ⟨2024, 3, 17⟩

/-- Two candidate files, one modified today and one yesterday. -/
def filesC2W : List LogFile :=
  [⟨"x.log", 1, ⟨2024, 3, 17⟩⟩, ⟨"y.log", 2, ⟨2024, 3, 16⟩⟩]

/-- A container listing holding two entries under the same base name
with different uncompressed sizes, as the builder produces when two
group members share a base name. -/
def zfilesDupW : List (String × Nat) :=
  [("a.log", 5), ("a.log", 7)]

/-- A live file system in which d1/a.log stats to size 5. -/
def statC3W : String → Option Int :=
  fun q => if q = "d1/a.log" then some 5 else none

/-- An ArchiveRecord holding the single embedded path d1/a.log. -/
def addedC3W : List String := ["d1/a.log"]

/-- A retention configuration selecting the age-cutoff policy with a
one-day window. -/
def cfgAgeW : Config :=
  ⟨"d", 1, false, false, "monthly", 0, "zip"⟩

/-- A retention environment whose walk visits two over-age archives and
in which only the first one fails to delete. -/
def envAgeFailW : CleanupEnv :=
  ⟨true, [], fun _ => none, fun p => decide (p ≠ "d/f1.zip"),
   [⟨"d/f1.zip", false, -90000, false⟩, ⟨"d/f2.zip", false, -90000, false⟩]⟩

/-- A retention environment whose walk visits one archive strictly older
than the one-day cutoff, one newer, and one exactly at the cutoff. -/
def envAgeEdgeW : CleanupEnv :=
  ⟨true, [], fun _ => none, fun _ => true,
   [⟨"d/old.zip", false, -200000, false⟩, ⟨"d/new.zip", false, 0, false⟩,
    ⟨"d/edge.zip", false, -86400, false⟩]⟩

/-- A keep-last-N configuration keeping one archive. -/
def cfgKeep1W : Config :=
  ⟨"d", 0, false, false, "monthly", 1, "zip"⟩

/-- A destination listing with a .zip entry whose stat fails. -/
def envStatFailW : CleanupEnv :=
  ⟨true, [⟨"b.zip", false⟩], fun _ => none, fun _ => true, []⟩

/-- A destination listing with two statable archives of different ages
and one non-archive file. -/
def envKeepW : CleanupEnv :=
  ⟨true, [⟨"a.zip", false⟩, ⟨"b.ZIP", false⟩, ⟨"c.txt", false⟩],
   fun p => if p = "d/a.zip" then some 10 else if p = "d/b.ZIP" then some 5 else none,
   fun _ => true, []⟩

/-- A concrete event sequence of the grouped pipeline: two embedded
files, one per-file error, one group-count update. -/
def evsW : List StatsEvent :=
  [.embedSuccess 5, .fileError ("boom"), .setGroupCount 1, .embedSuccess 7]

theorem alookup_aerase_self {α : Type} (m : List (String × α)) (k : String) :
    alookup (aerase m k) k = none := by
  induction m with
  | nil => rfl
  | cons kv rest ih =>
    simp only [aerase]
    by_cases h : kv.1 = k
    · simpa [h] using ih
    · simp [alookup, h, ih]

theorem alookup_aerase_ne {α : Type} (m : List (String × α)) (k q : String)
    (h : q ≠ k) : alookup (aerase m k) q = alookup m q := by
  induction m with
  | nil => rfl
  | cons kv rest ih =>
    simp only [aerase, alookup]
    by_cases h1 : kv.1 = k
    · have h3 : ¬ k = q := fun hh => h hh.symm
      simp [h1, alookup, ih, h3]
    · simp [h1, alookup, ih]

theorem alookup_append {α : Type} (m1 m2 : List (String × α)) (q : String) :
    alookup (m1 ++ m2) q =
      match alookup m1 q with
      | some v => some v
      | none => alookup m2 q := by
  induction m1 with
  | nil => rfl
  | cons kv rest ih =>
    simp only [List.cons_append, alookup]
    by_cases h : kv.1 = q
    · simp [h]
    · simp [h, ih]

theorem alookup_mapInsert {α : Type} (m : List (String × α)) (k : String) (v : α)
    (q : String) :
    alookup (mapInsert m k v) q = if q = k then some v else alookup m q := by
  unfold mapInsert
  rw [alookup_append]
  by_cases h : q = k
  · subst h
    rw [alookup_aerase_self]
    simp [alookup]
  · rw [alookup_aerase_ne _ _ _ h]
    have h2 : ¬ k = q := fun hh => h hh.symm
    cases hm : alookup m q <;> simp [alookup, h, h2]

theorem alookup_foldl_mapInsert {α : Type} (g : String → α) (added : List String)
    (m0 : List (String × α)) (q : String) :
    alookup (added.foldl (fun m p => mapInsert m p (g p)) m0) q =
      if q ∈ added then some (g q) else alookup m0 q := by
  induction added generalizing m0 with
  | nil => simp
  | cons x xs ih =>
    simp only [List.foldl_cons]
    rw [ih, alookup_mapInsert]
    by_cases h1 : q ∈ xs
    · simp [h1]
    · by_cases h2 : q = x <;> simp [h1, h2]

theorem mem_of_mem_aerase {α : Type} {q : String × α} {m : List (String × α)}
    {k : String} (h : q ∈ aerase m k) : q ∈ m := by
  induction m with
  | nil => simp [aerase] at h
  | cons kv rest ih =>
    simp only [aerase] at h
    by_cases h1 : kv.1 = k
    · rw [if_pos h1] at h
      exact List.mem_cons_of_mem _ (ih h)
    · rw [if_neg h1] at h
      rcases List.mem_cons.mp h with h2 | h2
      · exact h2 ▸ List.mem_cons_self _ _
      · exact List.mem_cons_of_mem _ (ih h2)

theorem mem_mapInsert {α : Type} {q : String × α} {m : List (String × α)}
    {k : String} {v : α} (h : q ∈ mapInsert m k v) : q ∈ m ∨ q = (k, v) := by
  unfold mapInsert at h
  rcases List.mem_append.mp h with h | h
  · exact Or.inl (mem_of_mem_aerase h)
  · simp at h
    exact Or.inr h

theorem mem_foldl_mapInsert {α : Type} (g : String → α) (added : List String)
    (m0 : List (String × α)) (q : String × α)
    (h : q ∈ added.foldl (fun m p => mapInsert m p (g p)) m0) :
    q ∈ m0 ∨ ∃ p, p ∈ added ∧ q = (p, g p) := by
  induction added generalizing m0 with
  | nil => exact Or.inl (by simpa using h)
  | cons x xs ih =>
    simp only [List.foldl_cons] at h
    rcases ih _ h with h1 | ⟨p, hp, hq⟩
    · rcases mem_mapInsert h1 with h2 | h2
      · exact Or.inl h2
      · exact Or.inr ⟨x, by simp, h2⟩
    · exact Or.inr ⟨p, by simp [hp], hq⟩

theorem alookup_foldl_entries (zfiles : List (String × Nat))
    (m0 : List (String × Nat)) (name : String) :
    alookup (zfiles.foldl (fun m f => mapInsert m f.1 f.2) m0) name =
      zfiles.foldl (fun acc f => if f.1 = name then some f.2 else acc)
        (alookup m0 name) := by
  induction zfiles generalizing m0 with
  | nil => simp
  | cons f fs ih =>
    simp only [List.foldl_cons]
    rw [ih]
    congr 1
    rw [alookup_mapInsert]
    by_cases h : f.1 = name
    · simp [h]
    · have h2 : ¬ name = f.1 := fun hh => h hh.symm
      simp [h, h2]

theorem alookup_entriesMap (zfiles : List (String × Nat)) (name : String) :
    alookup (zfiles.foldl (fun m f => mapInsert m f.1 f.2) []) name =
      lastEntrySize zfiles name := by
  have h := alookup_foldl_entries zfiles [] name
  simpa [lastEntrySize, alookup] using h

theorem lastEntry_foldl_cases (zfiles : List (String × Nat)) (name : String)
    (acc0 : Option Nat) :
    zfiles.foldl (fun acc f => if f.1 = name then some f.2 else acc) acc0 = acc0 ∨
      ∃ f, f ∈ zfiles ∧
        zfiles.foldl (fun acc f => if f.1 = name then some f.2 else acc) acc0 =
          some f.2 := by
  induction zfiles generalizing acc0 with
  | nil => exact Or.inl rfl
  | cons f fs ih =>
    simp only [List.foldl_cons]
    rcases ih (if f.1 = name then some f.2 else acc0) with h | ⟨g, hg, hgeq⟩
    · by_cases hf : f.1 = name
      · exact Or.inr ⟨f, by simp, by rw [h, if_pos hf]⟩
      · exact Or.inl (by rw [h, if_neg hf])
    · exact Or.inr ⟨g, List.mem_cons_of_mem _ hg, hgeq⟩

theorem lastEntrySize_mem (zfiles : List (String × Nat)) (name : String) (u : Nat)
    (h : lastEntrySize zfiles name = some u) : ∃ f, f ∈ zfiles ∧ f.2 = u := by
  rcases lastEntry_foldl_cases zfiles name none with h1 | ⟨f, hf, hfeq⟩
  · rw [lastEntrySize] at h
    rw [h1] at h
    exact absurd h (by simp)
  · rw [lastEntrySize] at h
    rw [hfeq] at h
    exact ⟨f, hf, Option.some.inj h⟩

theorem int64OfUInt64_eq_iff (u : Nat) (s : Int) (hu : u < 2 ^ 64)
    (hs0 : 0 ≤ s) (hs1 : s < 2 ^ 63) :
    (int64OfUInt64 u = s) ↔ ((u : Int) = s) := by
  unfold int64OfUInt64
  split
  · exact Iff.rfl
  · next h =>
    have h1 : (2 : Int) ^ 63 ≤ (u : Int) := by exact_mod_cast Nat.not_lt.mp h
    constructor
    · intro he
      exfalso
      have h2 : (u : Int) < 2 ^ 64 := by exact_mod_cast hu
      omega
    · intro he
      exfalso
      omega

/-- C2: after the grouping step of processLogs, the group keyed by
today's period is absent whenever the scope is daily (regardless of the
include-current-period flag), and absent under monthly scope when the
flag is false; the entry of every other key is exactly what the grouping
loop produced, so no other group is affected by the exclusion. -/
theorem C2_today_group_excluded (archiveScope : String) (flag : Bool)
    (now : GoTime) (files : List LogFile)
    (h : toLowerAscii archiveScope = "daily" ∨
      (toLowerAscii archiveScope = "monthly" ∧ flag = false)) :
    alookup (groupAndExclude archiveScope flag now files)
        (groupKeyForTime archiveScope now) = none
    ∧ ∀ k, k ≠ groupKeyForTime archiveScope now →
        alookup (groupAndExclude archiveScope flag now files) k =
          alookup (buildGroups archiveScope files) k := by
  have hgen : ∀ gs : List (String × List LogFile),
      alookup (aerase gs (groupKeyForTime archiveScope now))
          (groupKeyForTime archiveScope now) = none
      ∧ ∀ k, k ≠ groupKeyForTime archiveScope now →
          alookup (aerase gs (groupKeyForTime archiveScope now)) k = alookup gs k :=
    fun gs => ⟨alookup_aerase_self _ _, fun k hk => alookup_aerase_ne _ _ _ hk⟩
  unfold groupAndExclude excludeCurrentPeriod
  rcases h with h | ⟨h, hf⟩
  · rw [h]
    simp only [show ¬ ("daily" = "monthly") from by decide, if_neg, not_false_iff]
    exact hgen _
  · rw [h, hf]
    simp only [if_pos rfl, if_neg]
    exact hgen _

/-- C2 witness: with daily scope, the include-current-period flag set
true, and a candidate file modified today, the group under today's key
is still absent after the grouping step. -/
theorem C2_today_group_excluded_witness :
    alookup (groupAndExclude ("daily") true nowC2W filesC2W)
      (groupKeyForTime ("daily") nowC2W) = none :=
  (C2_today_group_excluded ("daily") true nowC2W filesC2W (Or.inl (by decide))).1

/-- C1: during the archive phase a source path is deleted only when the
delete-after-compress flag is enabled and the verification mapping
produced for the group binds that exact path to true; a path bound to
false or absent from the mapping is never deleted. -/
theorem C1_delete_only_verified (cfg : Config) (env : GroupEnv)
    (files : List LogFile) (p : String)
    (hp : p ∈ (compressMonthGroup cfg env files).deleted) :
    cfg.deleteOriginalAfterCompress = true ∧
      alookup (groupVerified env files) p = some true := by
  have hp2 : p ∈ groupDeletionsAttempted cfg env files := by
    unfold compressMonthGroup at hp
    split at hp
    · simp at hp
    · split at hp
      · simp at hp
      · split at hp
        · split at hp
          · simp at hp
          · split at hp
            · simp at hp
            · exact (List.mem_filter.mp hp).1
        · simp at hp
  unfold groupDeletionsAttempted at hp2
  by_cases hflag : cfg.deleteOriginalAfterCompress = true
  · refine ⟨hflag, ?_⟩
    rw [if_pos hflag] at hp2
    rcases List.mem_map.mp hp2 with ⟨q, hq, hq1⟩
    rcases List.mem_filter.mp hq with ⟨hqm, hq2⟩
    unfold groupVerified at hqm ⊢
    revert hqm
    cases env.zipOpen with
    | none =>
      intro hqm
      simp only [verifyZipContainsAll] at hqm
      rcases mem_foldl_mapInsert (fun _ => false) _ _ _ hqm with h0 | ⟨p1, hp1, hqe⟩
      · simp at h0
      · rw [hqe] at hq2
        simp at hq2
    | some zfiles =>
      intro hqm
      simp only [verifyZipContainsAll] at hqm ⊢
      rcases mem_foldl_mapInsert _ _ _ _ hqm with h0 | ⟨p1, hp1, hqe⟩
      · simp at h0
      · rw [alookup_foldl_mapInsert]
        have hp1p : p1 = p := by rw [hqe] at hq1; exact hq1
        rw [hqe] at hq2
        rw [hp1p] at hp1 hq2
        simp only [hp1, if_pos]
        exact congrArg some hq2
  · rw [if_neg hflag] at hp2
    simp at hp2

/-- C1 witness: a run with delete-after-compress enabled and a fully
verified one-file group deletes that file, and the theorem yields that
the flag was set and the mapping binds the path to true. -/
theorem C1_delete_only_verified_witness :
    cfgDelW.deleteOriginalAfterCompress = true ∧
      alookup (groupVerified envOkW filesOneW) ("a.log") = some true :=
  C1_delete_only_verified cfgDelW envOkW filesOneW ("a.log") (by decide)

/-- C8: not every statistics mutation reachable from the grouped
pipeline holds the mutual-exclusion lock: the error append performed by
verifyZipContainsAll when the container cannot be opened runs outside
mu, unlike every other mutation site. -/
theorem C8_unlocked_mutation_site :
    (⟨"verifyZipContainsAll: append verify-open error", false⟩ : StatsMutationSite) ∈
        groupedStatsMutationSites
    ∧ ¬ ∀ site ∈ groupedStatsMutationSites, site.holdsMutex = true := by
  constructor
  · decide
  · intro hall
    have := hall ⟨"verifyZipContainsAll: append verify-open error", false⟩ (by decide)
    simp at this

/-- C9: starting from the initial statistics, after any sequence of
statistics events of the grouped pipeline the files-processed and
files-compressed counters are equal: the per-embedded-file event
increments both together, and no other grouped-pipeline event touches
either counter. -/
theorem C9_counters_in_sync (evs : List StatsEvent) :
    ((evs.foldl applyStatsEvent initialStats).filesProcessed =
      (evs.foldl applyStatsEvent initialStats).filesCompressed)
    ∧ (∀ s sz, (applyStatsEvent s (.embedSuccess sz)).filesProcessed =
          s.filesProcessed + 1
        ∧ (applyStatsEvent s (.embedSuccess sz)).filesCompressed =
          s.filesCompressed + 1)
    ∧ (∀ s e, isEmbedSuccess e = false →
        (applyStatsEvent s e).filesProcessed = s.filesProcessed
        ∧ (applyStatsEvent s e).filesCompressed = s.filesCompressed) := by
  refine ⟨?_, fun s sz => ⟨rfl, rfl⟩, fun s e he => ?_⟩
  · have hgen : ∀ s0 : CompressionStats, s0.filesProcessed = s0.filesCompressed →
        (evs.foldl applyStatsEvent s0).filesProcessed =
          (evs.foldl applyStatsEvent s0).filesCompressed := by
      induction evs with
      | nil => exact fun s0 h => h
      | cons e es ih =>
        intro s0 h
        simp only [List.foldl_cons]
        apply ih
        cases e <;> simp [applyStatsEvent, h]
    exact hgen initialStats rfl
  · cases e <;> simp_all [applyStatsEvent, isEmbedSuccess]

/-- C9 witness: on a concrete event sequence the counters agree, and a
concrete non-embed event leaves the files-processed counter unchanged. -/
theorem C9_counters_in_sync_witness :
    ((evsW.foldl applyStatsEvent initialStats).filesProcessed =
      (evsW.foldl applyStatsEvent initialStats).filesCompressed)
    ∧ (applyStatsEvent initialStats (.fileError ("x"))).filesProcessed =
        initialStats.filesProcessed :=
  ⟨(C9_counters_in_sync evsW).1,
   ((C9_counters_in_sync evsW).2.2 initialStats (.fileError ("x")) (by decide)).1⟩

theorem verify_some_alookup (zfiles : List (String × Nat))
    (statSize : String → Option Int) (added : List String) (p : String)
    (hp : p ∈ added) :
    alookup (verifyZipContainsAll (some zfiles) statSize added).1 p =
      some (verifyVerdict (zfiles.foldl (fun m f => mapInsert m f.1 f.2) [])
        statSize p) := by
  simp only [verifyZipContainsAll]
  rw [alookup_foldl_mapInsert, if_pos hp]

theorem verifyVerdict_eq_true_iff (zfiles : List (String × Nat))
    (statSize : String → Option Int) (p : String)
    (hu : ∀ f ∈ zfiles, f.2 < 2 ^ 64)
    (hs : statInRangeB (statSize p) = true) :
    verifyVerdict (zfiles.foldl (fun m f => mapInsert m f.1 f.2) []) statSize p = true ↔
      ∃ s u, statSize p = some s ∧ lastEntrySize zfiles (baseName p) = some u ∧
        (u : Int) = s := by
  unfold verifyVerdict
  rw [alookup_entriesMap]
  cases hst : statSize p with
  | none => simp
  | some s =>
    rw [hst] at hs
    have hsr : 0 ≤ s ∧ s < 2 ^ 63 := by simpa [statInRangeB] using hs
    cases hle : lastEntrySize zfiles (baseName p) with
    | none => simp
    | some u =>
      have hur : u < 2 ^ 64 := by
        rcases lastEntrySize_mem zfiles (baseName p) u hle with ⟨f, hf, hfu⟩
        exact hfu ▸ hu f hf
      have hiff := int64OfUInt64_eq_iff u s hur hsr.1 hsr.2
      by_cases hc : int64OfUInt64 u = s
      · simp [hc, hiff.mp hc]
      · have hnc : ¬ (u : Int) = s := fun hh => hc (hiff.mpr hh)
        simp [hc, hnc]

/-- C3 counterexample: the container opens, the live file d1/a.log stats
to size 5, and the container does hold an entry under the path's base
name a.log whose uncompressed size equals that live size — yet the
verifier maps the path to false, because a later duplicate entry of size
7 shadows it in the entries map; so holding a matching entry does not
characterize a true verdict, refuting the claim as stated. -/
theorem C3_counterexample :
    (("a.log", (5 : Nat)) ∈ zfilesDupW) ∧
    baseName ("d1/a.log") = "a.log" ∧
    statC3W ("d1/a.log") = some 5 ∧
    int64OfUInt64 5 = (5 : Int) ∧
    alookup (verifyZipContainsAll (some zfilesDupW) statC3W addedC3W).1
      ("d1/a.log") = some false := by
  decide

/-- C3 (amended): when the container cannot be opened, every listed path
is mapped to false and an error is recorded; when it opens, a listed
path is mapped to true exactly when the live file can be stat-ed and the
LAST container entry under the path's base name (later duplicate names
shadow earlier ones) has uncompressed size equal to the live size —
under the Go-guaranteed ranges for entry sizes (uint64) and stat sizes
(non-negative int64). -/
theorem C3_verifier_characterization (zfiles : List (String × Nat))
    (statSize : String → Option Int) (added : List String) (p : String)
    (hp : p ∈ added)
    (hu : ∀ f ∈ zfiles, f.2 < 2 ^ 64)
    (hs : statInRangeB (statSize p) = true) :
    ((verifyZipContainsAll none statSize added).2 = true ∧
      ∀ q ∈ added, alookup (verifyZipContainsAll none statSize added).1 q =
        some false)
    ∧ (alookup (verifyZipContainsAll (some zfiles) statSize added).1 p =
        some true ↔
      ∃ s u, statSize p = some s ∧ lastEntrySize zfiles (baseName p) = some u ∧
        (u : Int) = s) := by
  refine ⟨⟨rfl, fun q hq => ?_⟩, ?_⟩
  · simp only [verifyZipContainsAll]
    rw [alookup_foldl_mapInsert, if_pos hq]
  · rw [verify_some_alookup zfiles statSize added p hp]
    rw [show ∀ b : Bool, (some b = some true) = (b = true) from fun b => by simp]
    exact verifyVerdict_eq_true_iff zfiles statSize p hu hs

/-- C3 witness: the amended characterization applied at the concrete
duplicate-name container, where both sides of the equivalence are false. -/
theorem C3_verifier_characterization_witness :
    alookup (verifyZipContainsAll (some zfilesDupW) statC3W addedC3W).1
        ("d1/a.log") = some true ↔
      ∃ s u, statC3W ("d1/a.log") = some s ∧
        lastEntrySize zfilesDupW (baseName ("d1/a.log")) = some u ∧ (u : Int) = s :=
  (C3_verifier_characterization zfilesDupW statC3W addedC3W ("d1/a.log")
    (by decide) (by decide) (by decide)).2

/-- C4 counterexample: every member of the group is embedded and the zip
writer closes successfully, then the close of the destination file
handle fails: the group fails, no verification or deletion happens, but
the container file is NOT removed (main.go:302-304 returns without
os.Remove), refuting the claim that a close failure removes the
container. -/
theorem C4_counterexample :
    envFileCloseFailW.fileCloseOk = false ∧
    (addFilesToZipM envFileCloseFailW filesOneW).2 = false ∧
    compressMonthGroup cfgDelW envFileCloseFailW filesOneW =
      ⟨true, false, false, [], []⟩ := by
  decide

/-- C4 (amended): after the member files are attempted, a zip-writer
close failure fails the group, removes the container, and skips
verification and deletion; a failure of the subsequent destination
file-handle close also fails the group with no verification or deletion,
but leaves the container file in place. -/
theorem C4_close_failure (cfg : Config) (env : GroupEnv) (files : List LogFile)
    (hne : files ≠ []) (hc : env.createOk = true)
    (hz : toLowerAscii cfg.compressionType = "zip") :
    ((addFilesToZipM env files).2 = true →
      compressMonthGroup cfg env files = ⟨true, true, false, [], []⟩)
    ∧ ((addFilesToZipM env files).2 = false → env.fileCloseOk = false →
      compressMonthGroup cfg env files = ⟨true, false, false, [], []⟩) := by
  unfold compressMonthGroup
  rw [if_neg hne, if_neg (show ¬ env.createOk = false by simp [hc]), if_pos hz]
  constructor
  · intro h
    rw [if_pos h]
  · intro h1 h2
    rw [if_neg (show ¬ (addFilesToZipM env files).2 = true by simp [h1]), if_pos h2]

/-- C4 witness: the amended theorem applied at a concrete group whose
zip writer close fails: the container is removed and the group fails. -/
theorem C4_close_failure_witness :
    compressMonthGroup cfgDelW envZipCloseFailW filesOneW =
      ⟨true, true, false, [], []⟩ :=
  (C4_close_failure cfgDelW envZipCloseFailW filesOneW (by decide) (by decide)
    (by decide)).1 (by decide)

theorem ageSweep_append (removeOk : String → Bool) (cutoff : Int)
    (l1 l2 : List WalkEntry) :
    ageSweep removeOk cutoff (l1 ++ l2) =
      if (ageSweep removeOk cutoff l1).errored then ageSweep removeOk cutoff l1
      else
        ⟨(ageSweep removeOk cutoff l1).attempted ++
            (ageSweep removeOk cutoff l2).attempted,
          (ageSweep removeOk cutoff l1).removed ++
            (ageSweep removeOk cutoff l2).removed,
          (ageSweep removeOk cutoff l2).errored⟩ := by
  induction l1 with
  | nil => simp [ageSweep]
  | cons v rest ih =>
    simp only [List.cons_append, ageSweep, List.append_eq]
    by_cases h1 : v.walkErr = true
    · simp [h1]
    · rw [if_neg h1, if_neg h1]
      by_cases h2 : v.isDir = true
      · rw [if_pos h2, if_pos h2]
        exact ih
      · rw [if_neg h2, if_neg h2]
        by_cases h3 : v.mod < cutoff
        · rw [if_pos h3, if_pos h3]
          by_cases h4 : removeOk v.path = true
          · rw [if_pos h4, if_pos h4, ih]
            by_cases h5 : (ageSweep removeOk cutoff rest).errored = true
            · simp [h5]
            · simp [h5]
          · rw [if_neg h4, if_neg h4]
            simp
        · rw [if_neg h3, if_neg h3]
          exact ih

theorem ageSweep_all_ok (removeOk : String → Bool) (cutoff : Int)
    (l : List WalkEntry)
    (hok : ∀ v ∈ l, removeOk v.path = true)
    (herr : ∀ v ∈ l, v.walkErr = false) :
    ageSweep removeOk cutoff l =
      ⟨(l.filter (fun v => !v.isDir && decide (v.mod < cutoff))).map
          (fun v => v.path),
        (l.filter (fun v => !v.isDir && decide (v.mod < cutoff))).map
          (fun v => v.path),
        false⟩ := by
  induction l with
  | nil => rfl
  | cons v rest ih =>
    have hv1 : v.walkErr = false := herr v (by simp)
    have hv2 : removeOk v.path = true := hok v (by simp)
    have ih2 := ih (fun w hw => hok w (by simp [hw])) (fun w hw => herr w (by simp [hw]))
    simp only [ageSweep, List.filter_cons]
    rw [if_neg (by simp [hv1])]
    by_cases h2 : v.isDir = true
    · rw [if_pos h2, ih2]
      simp [h2]
    · rw [if_neg h2]
      by_cases h3 : v.mod < cutoff
      · rw [if_pos h3, if_pos hv2, ih2]
        simp [h2, h3]
      · rw [if_neg h3, ih2]
        simp [h2, h3]

theorem mem_of_mem_insertByModDesc {x y : String × Int} {l : List (String × Int)}
    (h : y ∈ insertByModDesc x l) : y = x ∨ y ∈ l := by
  induction l with
  | nil =>
    simp only [insertByModDesc] at h
    exact Or.inl (by simpa using h)
  | cons z zs ih =>
    simp only [insertByModDesc] at h
    by_cases hc : z.2 < x.2
    · rw [if_pos hc] at h
      rcases List.mem_cons.mp h with h1 | h1
      · exact Or.inl h1
      · exact Or.inr h1
    · rw [if_neg hc] at h
      rcases List.mem_cons.mp h with h1 | h1
      · exact Or.inr (by simp [h1])
      · rcases ih h1 with h2 | h2
        · exact Or.inl h2
        · exact Or.inr (List.mem_cons_of_mem _ h2)

theorem mem_of_mem_sortByModDesc {y : String × Int} {l : List (String × Int)}
    (h : y ∈ sortByModDesc l) : y ∈ l := by
  induction l with
  | nil => simp [sortByModDesc] at h
  | cons z zs ih =>
    simp only [sortByModDesc, List.foldr_cons] at h
    rcases mem_of_mem_insertByModDesc h with h1 | h1
    · simp [h1]
    · exact List.mem_cons_of_mem _ (ih h1)

/-- C5 counterexample: under the age-cutoff policy the walk visits two
over-age archives; the deletion of the first fails, and the second —
although a non-directory candidate strictly older than the cutoff whose
own removal would succeed — is never examined: the sweep aborts after
the first failure, refuting the claim that one failed deletion does not
abort the sweep. -/
theorem C5_counterexample :
    (∃ v ∈ envAgeFailW.walkFiles, v.path = "d/f2.zip" ∧ v.isDir = false ∧
      v.walkErr = false ∧ v.mod < 0 - cfgAgeW.retentionDays * 86400 ∧
      envAgeFailW.removeOk v.path = true) ∧
    (cleanupOldCompressedLogs cfgAgeW envAgeFailW 0).attempted = ["d/f1.zip"] ∧
    ("d/f2.zip") ∉ (cleanupOldCompressedLogs cfgAgeW envAgeFailW 0).attempted ∧
    (cleanupOldCompressedLogs cfgAgeW envAgeFailW 0).errored = true := by
  decide

/-- C5 (amended): under keep-last-N a removal failure does not abort the
sweep — the attempted-removal list does not depend on the removal
outcomes at all, so every remaining candidate is still attempted; under
age-cutoff the first failed removal aborts the walk: the sweep attempts
the failing file and nothing after it, and the error is surfaced. -/
theorem C5_retention_failure_behavior (cfg : Config) (env : CleanupEnv)
    (now : Int) :
    (0 < cfg.keepLastNArchives → ∀ r,
      (cleanupOldCompressedLogs cfg { env with removeOk := r } now).attempted =
        (cleanupOldCompressedLogs cfg env now).attempted)
    ∧ (cfg.keepLastNArchives ≤ 0 → 0 < cfg.retentionDays →
      ∀ pre v post, env.walkFiles = pre ++ v :: post →
        (ageSweep env.removeOk (now - cfg.retentionDays * 86400) pre).errored = false →
        v.walkErr = false → v.isDir = false →
        v.mod < now - cfg.retentionDays * 86400 →
        env.removeOk v.path = false →
        cleanupOldCompressedLogs cfg env now =
          ⟨(ageSweep env.removeOk (now - cfg.retentionDays * 86400) pre).attempted
              ++ [v.path],
            (ageSweep env.removeOk (now - cfg.retentionDays * 86400) pre).removed,
            true⟩) := by
  constructor
  · intro hn r
    by_cases hrd : env.readDirOk = false <;>
      simp [cleanupOldCompressedLogs, hn, hrd, keepAttempts, keepCandidates]
  · intro hn hd pre v post hsplit hpre hv1 hv2 hv3 hv4
    unfold cleanupOldCompressedLogs
    rw [if_neg (show ¬ 0 < cfg.keepLastNArchives by omega),
      if_neg (show ¬ cfg.retentionDays ≤ 0 by omega)]
    rw [hsplit, ageSweep_append, if_neg (by simp [hpre])]
    have hv : ageSweep env.removeOk (now - cfg.retentionDays * 86400) (v :: post) =
        ⟨[v.path], [], true⟩ := by
      simp only [ageSweep]
      rw [if_neg (by simp [hv1]), if_neg (by simp [hv2]), if_pos hv3,
        if_neg (by simp [hv4])]
    rw [hv]
    simp

/-- C5 witness: the amended theorem applied at the concrete aborting
walk: only the failing file is attempted and the error is surfaced. -/
theorem C5_retention_failure_behavior_witness :
    cleanupOldCompressedLogs cfgAgeW envAgeFailW 0 = ⟨["d/f1.zip"], [], true⟩ := by
  have h := (C5_retention_failure_behavior cfgAgeW envAgeFailW 0).2 (by decide)
    (by decide) [] ⟨"d/f1.zip", false, -90000, false⟩
    [⟨"d/f2.zip", false, -90000, false⟩]
    (by decide) (by decide) rfl rfl (by decide) (by decide)
  simpa using h

/-- C6: keep-last-N runs exactly when KeepLastNArchives > 0 and then the
age policy is not evaluated (the outcome ignores RetentionDays and the
walk); with KeepLastNArchives ≤ 0 the age sweep runs exactly when
RetentionDays > 0; with both non-positive the retention step deletes
nothing. -/
theorem C6_policy_selection (cfg : Config) (env : CleanupEnv) (now : Int) :
    (0 < cfg.keepLastNArchives →
      (cleanupOldCompressedLogs cfg env now =
        if env.readDirOk = false then ⟨[], [], true⟩
        else ⟨keepAttempts cfg env, (keepAttempts cfg env).filter env.removeOk,
          false⟩)
      ∧ ∀ d wf, cleanupOldCompressedLogs { cfg with retentionDays := d }
          { env with walkFiles := wf } now = cleanupOldCompressedLogs cfg env now)
    ∧ (cfg.keepLastNArchives ≤ 0 → 0 < cfg.retentionDays →
      cleanupOldCompressedLogs cfg env now =
        ⟨(ageSweep env.removeOk (now - cfg.retentionDays * 86400)
            env.walkFiles).attempted,
          (ageSweep env.removeOk (now - cfg.retentionDays * 86400)
            env.walkFiles).removed,
          (ageSweep env.removeOk (now - cfg.retentionDays * 86400)
            env.walkFiles).errored⟩)
    ∧ (cfg.keepLastNArchives ≤ 0 → cfg.retentionDays ≤ 0 →
      cleanupOldCompressedLogs cfg env now = ⟨[], [], false⟩) := by
  refine ⟨fun hn => ⟨?_, fun d wf => ?_⟩, fun hn hd => ?_, fun hn hd => ?_⟩
  · simp only [cleanupOldCompressedLogs, if_pos hn]
  · by_cases hrd : env.readDirOk = false <;>
      simp [cleanupOldCompressedLogs, hn, hrd, keepAttempts, keepCandidates]
  · unfold cleanupOldCompressedLogs
    rw [if_neg (show ¬ 0 < cfg.keepLastNArchives by omega),
      if_neg (show ¬ cfg.retentionDays ≤ 0 by omega)]
  · unfold cleanupOldCompressedLogs
    rw [if_neg (show ¬ 0 < cfg.keepLastNArchives by omega), if_pos hd]

/-- C6 witness: with both retention fields non-positive the retention
step removes nothing and reports no error. -/
theorem C6_policy_selection_witness :
    cleanupOldCompressedLogs cfgDelW envAgeFailW 0 = ⟨[], [], false⟩ :=
  (C6_policy_selection cfgDelW envAgeFailW 0).2.2 (by decide) (by decide)

/-- C7: under the age-cutoff policy, with a fault-free walk and all
removals succeeding, a non-directory file is removed exactly when its
modification time is strictly before now minus RetentionDays days; a
file whose modification time equals the cutoff instant is not removed. -/
theorem C7_age_cutoff_strict (cfg : Config) (env : CleanupEnv) (now : Int)
    (hn : cfg.keepLastNArchives ≤ 0) (hd : 0 < cfg.retentionDays)
    (hok : ∀ p, env.removeOk p = true)
    (herr : ∀ v ∈ env.walkFiles, v.walkErr = false)
    (hnd : (env.walkFiles.map (fun v => v.path)).Nodup) :
    (∀ v ∈ env.walkFiles, v.isDir = false →
      (v.path ∈ (cleanupOldCompressedLogs cfg env now).removed ↔
        v.mod < now - cfg.retentionDays * 86400))
    ∧ ∀ v ∈ env.walkFiles, v.mod = now - cfg.retentionDays * 86400 →
        v.path ∉ (cleanupOldCompressedLogs cfg env now).removed := by
  have hrem : (cleanupOldCompressedLogs cfg env now).removed =
      (env.walkFiles.filter
        (fun v => !v.isDir && decide (v.mod < now - cfg.retentionDays * 86400))).map
        (fun v => v.path) := by
    unfold cleanupOldCompressedLogs
    rw [if_neg (show ¬ 0 < cfg.keepLastNArchives by omega),
      if_neg (show ¬ cfg.retentionDays ≤ 0 by omega)]
    rw [ageSweep_all_ok env.removeOk _ env.walkFiles (fun v _ => hok v.path) herr]
  rw [hrem]
  constructor
  · intro v hv hdir
    constructor
    · intro hmem
      rcases List.mem_map.mp hmem with ⟨w, hw, hwp⟩
      rcases List.mem_filter.mp hw with ⟨hwmem, hwcond⟩
      have hwv : w = v := List.inj_on_of_nodup_map hnd hwmem hv hwp
      subst hwv
      simp only [Bool.and_eq_true, decide_eq_true_eq] at hwcond
      exact hwcond.2
    · intro hlt
      exact List.mem_map.mpr
        ⟨v, List.mem_filter.mpr ⟨hv, by simp [hdir, hlt]⟩, rfl⟩
  · intro v hv heq hmem
    rcases List.mem_map.mp hmem with ⟨w, hw, hwp⟩
    rcases List.mem_filter.mp hw with ⟨hwmem, hwcond⟩
    have hwv : w = v := List.inj_on_of_nodup_map hnd hwmem hv hwp
    subst hwv
    simp only [Bool.and_eq_true, decide_eq_true_eq] at hwcond
    omega

/-- C7 witness: in a concrete walk with one file strictly older than the
one-day cutoff, one newer, and one exactly at the cutoff, the file at
the boundary is not removed. -/
theorem C7_age_cutoff_strict_witness :
    ("d/edge.zip") ∉ (cleanupOldCompressedLogs cfgAgeW envAgeEdgeW 0).removed :=
  (C7_age_cutoff_strict cfgAgeW envAgeEdgeW 0 (by decide) (by decide)
    (fun p => rfl) (by decide) (by decide)).2
    ⟨"d/edge.zip", false, -86400, false⟩ (by decide) (by decide)

/-- C10 counterexample: b.zip is a non-directory entry whose name ends
in .zip, yet because os.Stat fails on it (main.go:638-641 skips it) it
contributes no candidate: it neither counts toward the kept N nor is
ever eligible for removal, refuting the claimed characterization of
which entries the keep-last-N policy touches. -/
theorem C10_counterexample :
    ((⟨"b.zip", false⟩ : DirEntry) ∈ envStatFailW.entries) ∧
    hasSuffixLower ("b.zip") (".zip") = true ∧
    keepCandidates envStatFailW ("d") = [] ∧
    (cleanupOldCompressedLogs cfgKeep1W envStatFailW 0).attempted = [] := by
  decide

/-- C10 (amended): under keep-last-N a directory entry contributes a
candidate (counting toward the kept N and eligible for removal) exactly
when it is a non-directory whose name ends case-insensitively in .zip or
.gz AND whose joined path can be stat-ed; the retention outcome is
independent of the configured compression kind, and removal is only ever
attempted on candidates. -/
theorem C10_keep_candidates (cfg : Config) (env : CleanupEnv) (now : Int)
    (hn : 0 < cfg.keepLastNArchives) (hrd : env.readDirOk = true) :
    (∀ p, p ∈ (keepCandidates env cfg.destFolder).map Prod.fst ↔
      ∃ e, e ∈ env.entries ∧ e.isDir = false ∧
        (hasSuffixLower e.name (".zip") = true ∨
          hasSuffixLower e.name (".gz") = true) ∧
        p = pathJoin cfg.destFolder e.name ∧ (env.statMod p).isSome = true)
    ∧ (∀ ct, cleanupOldCompressedLogs { cfg with compressionType := ct } env now =
        cleanupOldCompressedLogs cfg env now)
    ∧ (∀ q, q ∈ (cleanupOldCompressedLogs cfg env now).attempted →
        q ∈ (keepCandidates env cfg.destFolder).map Prod.fst) := by
  refine ⟨fun p => ⟨?_, ?_⟩, fun ct => rfl, fun q hq => ?_⟩
  · intro hmem
    rcases List.mem_map.mp hmem with ⟨pair, hpair, hpq⟩
    rcases List.mem_filterMap.mp hpair with ⟨e, he, hfe⟩
    by_cases hdir : e.isDir = true
    · rw [if_pos hdir] at hfe
      exact absurd hfe (by simp)
    · by_cases hsuf : (hasSuffixLower e.name (".zip") ||
          hasSuffixLower e.name (".gz")) = true
      · rw [if_neg hdir] at hfe
        rw [if_neg (by simp [hsuf])] at hfe
        cases hst : env.statMod (pathJoin cfg.destFolder e.name) with
        | none => rw [hst] at hfe; exact absurd hfe (by simp)
        | some m =>
          rw [hst] at hfe
          have hpair2 : pair = (pathJoin cfg.destFolder e.name, m) :=
            (Option.some.inj hfe).symm
          refine ⟨e, he, by simpa using hdir, by simpa using hsuf, ?_, ?_⟩
          · rw [← hpq, hpair2]
          · rw [← hpq, hpair2]
            simp [hst]
      · have hsuf2 : (hasSuffixLower e.name (".zip") ||
            hasSuffixLower e.name (".gz")) = false := by simpa using hsuf
        rw [if_neg hdir] at hfe
        rw [if_pos (by simp [hsuf2])] at hfe
        exact absurd hfe (by simp)
  · rintro ⟨e, he, hdir, hsuf, hpj, hsm⟩
    rcases Option.isSome_iff_exists.mp hsm with ⟨m, hm⟩
    refine List.mem_map.mpr ⟨(pathJoin cfg.destFolder e.name, m), ?_, by rw [← hpj]⟩
    refine List.mem_filterMap.mpr ⟨e, he, ?_⟩
    rw [if_neg (by simp [hdir])]
    rw [if_neg (by rcases hsuf with h | h <;> simp [h])]
    rw [hpj] at hm
    rw [hm]
  · have hq2 : q ∈ keepAttempts cfg env := by
      unfold cleanupOldCompressedLogs at hq
      rw [if_pos hn, if_neg (by simp [hrd])] at hq
      exact hq
    rcases List.mem_map.mp hq2 with ⟨pair, hpair, hpq⟩
    have h1 : pair ∈ sortByModDesc (keepCandidates env cfg.destFolder) :=
      List.mem_of_mem_drop hpair
    have h2 : pair ∈ keepCandidates env cfg.destFolder :=
      mem_of_mem_sortByModDesc h1
    exact hpq ▸ List.mem_map.mpr ⟨pair, h2, rfl⟩

/-- C10 witness: the amended characterization applied at a concrete
listing: the upper-cased b.ZIP archive with a successful stat is a
candidate. -/
theorem C10_keep_candidates_witness :
    ("d/b.ZIP") ∈ (keepCandidates envKeepW cfgKeep1W.destFolder).map Prod.fst ↔
      ∃ e, e ∈ envKeepW.entries ∧ e.isDir = false ∧
        (hasSuffixLower e.name (".zip") = true ∨
          hasSuffixLower e.name (".gz") = true) ∧
        ("d/b.ZIP") = pathJoin cfgKeep1W.destFolder e.name ∧
        (envKeepW.statMod ("d/b.ZIP")).isSome = true :=
  (C10_keep_candidates cfgKeep1W envKeepW 0 (by decide) (by decide)).1 ("d/b.ZIP")
